import Mathlib

/-!
Verification development for the AutoLearn browser extension.

This file gives a shallow embedding of the extension's core logic:

* the JSON reply payload and a model of the JavaScript builtin
  `JSON.parse` (restricted to the JSON grammar, which is all the
  extension feeds it),
* the string-normalisation and regex-extraction helpers used by the
  provider adapters (`src/unnamed/part_001` — the Gemini adapter — and
  the DeepSeek adapter in the second half of `src/unnamed/part_002`),
* the reply-observation state machine of both adapters,
* the answer-application logic of the textbook content script
  (first half of `src/unnamed/part_002`),
* the orchestrator's `processQuestion` in
  `src/background/background.js`.

Machine-level DOM state (elements, observers, timers) is represented by
explicit data passed to the step functions; the browser's serialized
event delivery lets the asynchronous callbacks be modelled as a
sequential trace of steps.
-/

/- ## Character classes and basic list utilities -/

/-- The opening-brace character, written via its code point. -/
def braceL : Char := Char.ofNat 123

/-- The closing-brace character, written via its code point. -/
def braceR : Char := Char.ofNat 125

/-- Whitespace accepted by the JSON grammar (`JSON.parse`). -/
def isJsonWs (c : Char) : Bool :=
  c = ' ' || c = '\t' || c = '\n' || c = '\r'

/-- Drop leading JSON whitespace. -/
def skipJsonWs (xs : List Char) : List Char :=
  xs.dropWhile isJsonWs

/-- The character class matched by the JavaScript regex class `\s`
(whitespace as used by `trim()` and `\s*`). -/
def isJsSpace (c : Char) : Bool :=
  c.toNat = 0x20 || (0x9 ≤ c.toNat && c.toNat ≤ 0xD) || c.toNat = 0xA0 ||
  c.toNat = 0x1680 || (0x2000 ≤ c.toNat && c.toNat ≤ 0x200A) ||
  c.toNat = 0x2028 || c.toNat = 0x2029 || c.toNat = 0x202F ||
  c.toNat = 0x205F || c.toNat = 0x3000 || c.toNat = 0xFEFF

/-- `leadsWith pat xs` holds when `pat` occurs at the head of `xs`. -/
def leadsWith : List Char → List Char → Bool
  | [], _ => true
  | _ :: _, [] => false
  | p :: ps, c :: cs => p = c && leadsWith ps cs

/-- First occurrence search: returns the characters strictly before the
first occurrence of `pat`, and the characters strictly after it.
`none` when `pat` does not occur.  Models `String.prototype.includes`
and the first-match behaviour of JavaScript regex literals built from
plain substrings. -/
def breakOnSub (pat : List Char) : List Char → Option (List Char × List Char)
  | [] => if pat.isEmpty then some ([], []) else none
  | c :: rest =>
    if leadsWith pat (c :: rest) then some ([], (c :: rest).drop pat.length)
    else
      match breakOnSub pat rest with
      | some (a, b) => some (c :: a, b)
      | none => none

/-- Substring containment, as in `String.prototype.includes`. -/
def containsSub (pat : List Char) (xs : List Char) : Bool :=
  (breakOnSub pat xs).isSome

/-- Longest prefix of `xs` that ends with the character `ch`
(used for the greedy `[\s\S]*` before a final literal). -/
def upToLastChar (ch : Char) (xs : List Char) : Option (List Char) :=
  match xs.reverse.dropWhile (fun c => c ≠ ch) with
  | [] => none
  | ys => some ys.reverse

/-- JavaScript `String.prototype.trim` on a character list. -/
def trimJsList (xs : List Char) : List Char :=
  ((xs.dropWhile isJsSpace).reverse.dropWhile isJsSpace).reverse

/-- JavaScript `String.prototype.trim`. -/
def trimJs (s : String) : String :=
  String.mk (trimJsList s.data)

/- ## The JSON value model and a model of `JSON.parse`

The extension hands `JSON.parse` the text scraped from the reply DOM.
`JSON.parse` is a JavaScript builtin; it is modelled here by an
executable parser of the JSON grammar (objects, arrays, strings with
escapes, numbers as rationals, booleans, null), strict about trailing
input exactly as the builtin is. -/

/-- JSON values, as produced by `JSON.parse`. -/
inductive Json where
  | null : Json
  | bool (b : Bool) : Json
  | num (q : ℚ) : Json
  | str (s : String) : Json
  | arr (elems : List Json) : Json
  | obj (fields : List (String × Json)) : Json

/-- JavaScript truthiness of a JSON value (`if (v)`). -/
def jTruthy : Json → Bool
  | .null => false
  | .bool b => b
  | .num q => q ≠ 0
  | .str s => s ≠ ""
  | .arr _ => true
  | .obj _ => true

/-- Last-wins association lookup (duplicate JSON keys keep the last). -/
def jLookupLast (k : String) : List (String × Json) → Option Json
  | [] => none
  | (k', v) :: rest =>
    match jLookupLast k rest with
    | some r => some r
    | none => if k' = k then some v else none

/-- Property access `v.key` on a parsed JSON value: defined (last
occurrence wins, as duplicate keys in `JSON.parse` do) on objects,
`undefined` (`none`) on every other value.  Access on `null` throws in
JavaScript; the call sites in the model handle that case explicitly
before using `jGet`. -/
def jGet (k : String) : Json → Option Json
  | .obj fs => jLookupLast k fs
  | _ => none

/-- JavaScript truthiness of a possibly-`undefined` value. -/
def jTruthyOpt : Option Json → Bool
  | none => false
  | some v => jTruthy v

/-- Hexadecimal digit value, for `\uXXXX` escapes. -/
def hexVal (c : Char) : Option Nat :=
  if '0' ≤ c ∧ c ≤ '9' then some (c.toNat - 48)
  else if 'a' ≤ c ∧ c ≤ 'f' then some (c.toNat - 87)
  else if 'A' ≤ c ∧ c ≤ 'F' then some (c.toNat - 55)
  else none

/-- Body of a JSON string literal (after the opening quote):
returns the decoded string and the input after the closing quote. -/
def parseStrAux (acc : List Char) : List Char → Option (String × List Char)
  | [] => none
  | '"' :: rest => some (String.mk acc.reverse, rest)
  | '\\' :: [] => none
  | '\\' :: e :: rest =>
    if e = '"' then parseStrAux ('"' :: acc) rest
    else if e = '\\' then parseStrAux ('\\' :: acc) rest
    else if e = '/' then parseStrAux ('/' :: acc) rest
    else if e = 'b' then parseStrAux ('\x08' :: acc) rest
    else if e = 'f' then parseStrAux ('\x0C' :: acc) rest
    else if e = 'n' then parseStrAux ('\n' :: acc) rest
    else if e = 'r' then parseStrAux ('\r' :: acc) rest
    else if e = 't' then parseStrAux ('\t' :: acc) rest
    else if e = 'u' then
      match rest with
      | h1 :: h2 :: h3 :: h4 :: rest' =>
        match hexVal h1, hexVal h2, hexVal h3, hexVal h4 with
        | some a, some b, some c, some d =>
          parseStrAux (Char.ofNat (((a * 16 + b) * 16 + c) * 16 + d) :: acc) rest'
        | _, _, _, _ => none
      | _ => none
    else none
  | c :: rest =>
    if c.toNat < 0x20 then none else parseStrAux (c :: acc) rest

/-- Numeric value of a digit list. -/
def digitsVal (ds : List Char) : Nat :=
  ds.foldl (fun a c => a * 10 + (c.toNat - 48)) 0

/-- JSON number literal, as a rational. -/
def parseNum (xs : List Char) : Option (ℚ × List Char) :=
  let (neg, xs1) :=
    match xs with
    | '-' :: r => (true, r)
    | _ => (false, xs)
  match xs1 with
  | [] => none
  | c :: _ =>
    if ¬ c.isDigit then none
    else
      let (intDs, xs2) :=
        if c = '0' then ([c], xs1.drop 1)
        else (xs1.takeWhile Char.isDigit, xs1.dropWhile Char.isDigit)
      let intPart : ℚ := (digitsVal intDs : ℚ)
      let (fracPart, xs3) :=
        match xs2 with
        | '.' :: r =>
          let fd := r.takeWhile Char.isDigit
          if fd.isEmpty then (none, xs2)
          else (some ((digitsVal fd : ℚ) / ((10 : ℚ) ^ fd.length)), r.dropWhile Char.isDigit)
        | _ => (none, xs2)
      match xs2, fracPart with
      | '.' :: _, none => none
      | _, _ =>
        let base : ℚ := intPart + (fracPart.getD 0)
        let expRes : Option (ℚ × List Char) :=
          match xs3 with
          | e :: r =>
            if e = 'e' ∨ e = 'E' then
              let (eneg, r1) :=
                match r with
                | '-' :: r' => (true, r')
                | '+' :: r' => (false, r')
                | _ => (false, r)
              let ed := r1.takeWhile Char.isDigit
              if ed.isEmpty then none
              else
                let scale : ℚ := (10 : ℚ) ^ digitsVal ed
                some ((if eneg then base / scale else base * scale), r1.dropWhile Char.isDigit)
            else some (base, xs3)
          | [] => some (base, xs3)
        match expRes with
        | none => none
        | some (v, rest) => some ((if neg then -v else v), rest)

/-- Array elements after the opening bracket (empty array handled by
the caller); the value-level recursion is passed in as `pv`. -/
def parseArrElems (pv : List Char → Option (Json × List Char)) :
    Nat → List Char → Option (List Json × List Char)
  | 0, _ => none
  | g + 1, xs =>
    match pv xs with
    | none => none
    | some (v, rest) =>
      match skipJsonWs rest with
      | ',' :: r2 =>
        match parseArrElems pv g r2 with
        | some (vs, r3) => some (v :: vs, r3)
        | none => none
      | ']' :: r2 => some ([v], r2)
      | _ => none

/-- Object members after the opening brace (empty object handled by
the caller). -/
def parseObjFields (pv : List Char → Option (Json × List Char)) :
    Nat → List Char → Option (List (String × Json) × List Char)
  | 0, _ => none
  | g + 1, xs =>
    match skipJsonWs xs with
    | '"' :: r1 =>
      match parseStrAux [] r1 with
      | none => none
      | some (k, r2) =>
        match skipJsonWs r2 with
        | ':' :: r3 =>
          match pv r3 with
          | none => none
          | some (v, r4) =>
            match skipJsonWs r4 with
            | ',' :: r5 =>
              match parseObjFields pv g r5 with
              | some (fs, r6) => some ((k, v) :: fs, r6)
              | none => none
            | c :: r5 =>
              if c = braceR then some ([(k, v)], r5) else none
            | [] => none
        | _ => none
    | _ => none

/-- One JSON value (leading whitespace allowed), fuel-indexed. -/
def parseJson : Nat → List Char → Option (Json × List Char)
  | 0, _ => none
  | f + 1, xs =>
    match skipJsonWs xs with
    | [] => none
    | c :: rest =>
      if c = '"' then
        match parseStrAux [] rest with
        | some (s, r) => some (.str s, r)
        | none => none
      else if c = braceL then
        match skipJsonWs rest with
        | c2 :: r2 =>
          if c2 = braceR then some (.obj [], r2)
          else
            match parseObjFields (parseJson f) (f + 1) rest with
            | some (fs, r) => some (.obj fs, r)
            | none => none
        | [] => none
      else if c = '[' then
        match skipJsonWs rest with
        | ']' :: r2 => some (.arr [], r2)
        | _ =>
          match parseArrElems (parseJson f) (f + 1) rest with
          | some (vs, r) => some (.arr vs, r)
          | none => none
      else if c = 't' then
        if leadsWith ['r', 'u', 'e'] rest then some (.bool true, rest.drop 3) else none
      else if c = 'f' then
        if leadsWith ['a', 'l', 's', 'e'] rest then some (.bool false, rest.drop 4) else none
      else if c = 'n' then
        if leadsWith ['u', 'l', 'l'] rest then some (.null, rest.drop 3) else none
      else
        match parseNum (c :: rest) with
        | some (q, r) => some (.num q, r)
        | none => none

/-- Model of the JavaScript builtin `JSON.parse`: `none` is a thrown
`SyntaxError`.  Trailing non-whitespace input is rejected, as the
builtin does. -/
def jsonParse (s : String) : Option Json :=
  match parseJson (s.data.length + 1) s.data with
  | some (v, rest) => if (skipJsonWs rest).isEmpty then some v else none
  | none => none

/- ## Reply-text normalisation (both adapters)

Both adapters normalise scraped reply text with
`.replace(/[​-‍﻿]/g, "").replace(/\n\s*/g, " ").trim()`. -/

/-- Zero-width characters removed by the first `replace`. -/
def isZeroWidth (c : Char) : Bool :=
  (0x200B ≤ c.toNat && c.toNat ≤ 0x200D) || c.toNat = 0xFEFF

/-- `replace(/\n\s*/g, " ")`: each newline together with the whitespace
run that follows it becomes a single space.  The `Bool` flag records
being inside the `\s*` run of a match. -/
def collapseNlAux : Bool → List Char → List Char
  | _, [] => []
  | skipping, c :: rest =>
    if skipping && isJsSpace c then collapseNlAux true rest
    else if c = '\n' then ' ' :: collapseNlAux true rest
    else c :: collapseNlAux false rest

/-- The full normalisation chain applied before `JSON.parse`. -/
def cleanText (s : String) : String :=
  String.mk (trimJsList (collapseNlAux false (s.data.filter (fun c => ¬ isZeroWidth c))))

/- ## Regex extraction models

The adapters use three regex literals on scraped text.  `[\s\S]`
matches every character; `*?` is lazy, `*` greedy; a match starts at
the leftmost position from which the whole pattern can succeed.  For
these patterns (literal fragments separated by `[\s\S]` quantifiers)
the leftmost-lazy match is: the first start character from which all
literal fragments occur in order, each fragment resolved to its first
occurrence after the previous one. -/

/-- Greedy `/\{[\s\S]*\}/`: from the first opening brace to the last
closing brace after it. -/
def greedyBrace (s : String) : Option String :=
  match breakOnSub [braceL] s.data with
  | none => none
  | some (_, afterBrace) =>
    match upToLastChar braceR afterBrace with
    | some seg => some (String.mk (braceL :: seg))
    | none => none

/-- Tail of a lazy match: after an opening brace, consume lazily up to
each literal fragment of `pats` in turn, then up to a closing brace.
Returns the characters of the match after the brace. -/
def lazyTail : List (List Char) → List Char → Option (List Char)
  | [], xs =>
    match breakOnSub [braceR] xs with
    | some (a, _) => some (a ++ [braceR])
    | none => none
  | pat :: ps, xs =>
    match breakOnSub pat xs with
    | some (a, b) =>
      match lazyTail ps b with
      | some seg => some (a ++ pat ++ seg)
      | none => none
    | none => none

/-- Leftmost match of `\{` followed by the lazy fragments `pats` and a
final `\}` (the shape of both fallback-extraction regexes). -/
def lazyBraceMatch (pats : List (List Char)) : List Char → Option String
  | [] => none
  | c :: rest =>
    if c = braceL then
      match lazyTail pats rest with
      | some seg => some (String.mk (braceL :: seg))
      | none => lazyBraceMatch pats rest
    else lazyBraceMatch pats rest

/-- `/\{[\s\S]*?"answer"[\s\S]*?\}/` (DeepSeek message-text path). -/
def lazyAnswer (s : String) : Option String :=
  lazyBraceMatch ["\"answer\"".data] s.data

/-- `/\{[\s\S]*?"answer"[\s\S]*?"explanation"[\s\S]*?\}/` (the
late fallback path of both adapters). -/
def lazyAnswerExpl (s : String) : Option String :=
  lazyBraceMatch ["\"answer\"".data, "\"explanation\"".data] s.data

/- ## Answer cleaning (`cleanAnswer`, `src/unnamed/part_002`) -/

/-- `replace(/^Field \d+:\s*/, "")`: strip a leading `Field N:` label
and the whitespace after it. -/
def stripFieldLabel (xs : List Char) : List Char :=
  if leadsWith "Field ".data xs then
    let r := xs.drop 6
    let ds := r.takeWhile Char.isDigit
    if ds.isEmpty then xs
    else
      match r.drop ds.length with
      | ':' :: r3 => r3.dropWhile isJsSpace
      | _ => xs
  else xs

/-- String case of `cleanAnswer`: trim, strip the `Field N:` label,
keep only the text before the first `" or "` alternative. -/
def cleanAnswerStr (s : String) : String :=
  let t := trimJsList s.data
  let t2 := stripFieldLabel t
  match breakOnSub " or ".data t2 with
  | some (before, _) => String.mk (trimJsList before)
  | none => String.mk t2

/-- `cleanAnswer` from the textbook content script: falsy values
(including the empty string) are returned unchanged, arrays are
cleaned element-wise, non-string truthy values pass through, strings
are normalised by `cleanAnswerStr`. -/
def cleanAnswer : Json → Json
  | .arr xs => .arr (xs.attach.map fun x => cleanAnswer x.1)
  | .str s => if s = "" then .str s else .str (cleanAnswerStr s)
  | v => v
  termination_by j => sizeOf j
  decreasing_by
    have h := List.sizeOf_lt_of_mem x.2
    simp only [Json.arr.sizeOf_spec]
    omega

/- ## Randomized delay (`generateRandomDelay`, `src/unnamed/part_002`)

`Math.random()` is modelled by a rational `r` with `0 ≤ r < 1`; the
function returns the delay in milliseconds. -/

/-- `generateRandomDelay(minSeconds, maxSeconds)` with the random draw
`r` made explicit. -/
def generateRandomDelay (minSeconds maxSeconds : ℤ) (r : ℚ) : ℤ :=
  if minSeconds = 0 ∧ maxSeconds = 0 then 0
  else
    let minS : ℤ := if minSeconds > maxSeconds then maxSeconds else minSeconds
    let minDelay : ℤ := minS * 1000
    let maxDelay : ℤ := maxSeconds * 1000
    if minDelay = 0 ∧ maxDelay = 0 then 0
    else ⌊r * ((maxDelay : ℚ) - (minDelay : ℚ) + 1)⌋ + minDelay

/- ## Option matching (`processChatGPTResponse`, `src/unnamed/part_002`) -/

/-- `replace(/\.$/, "")`: strip a single trailing period. -/
def stripTrailingPeriod (s : String) : String :=
  match s.data.getLast? with
  | some c => if c = '.' then String.mk s.data.dropLast else s
  | none => s

/-- The per-pair option-matching predicate of the choice-selection
step: exact match, match after stripping one trailing period from each
side, or the option equal to the answer with a period appended. -/
def answerMatches (choiceText ans : String) : Bool :=
  if choiceText = ans then true
  else if stripTrailingPeriod choiceText = stripTrailingPeriod ans then true
  else if choiceText = ans ++ "." then true
  else false

/- ## Reply-observation state machine

Shared observation state of an adapter content script: `connected` is
whether a `MutationObserver` (and, for DeepSeek, the poll interval) is
registered; `hasResponded` and `messageCountAtQuestion` are the
module-level variables of the same names.  `resetObservation` clears
everything; a `receiveQuestion` message resets and then (after the
prompt is submitted) `startObserving` re-arms the watch with the
pre-existing reply elements counted as baseline.

An emission is `chrome.runtime.sendMessage({type: ...Response})`.  In
the source, the successful-send continuation calls `resetObservation`;
the model performs the disconnect together with the emission (between
the send and its continuation the real observer is still connected but
`hasResponded` blocks it, so no emission is observable either way). -/

structure ObsState where
  connected : Bool
  hasResponded : Bool
  messageCountAtQuestion : Nat
deriving DecidableEq, Repr

/-- State after `resetObservation` followed by `startObserving`, with
`n` pre-existing reply elements counted at question time. -/
def startCycle (n : Nat) : ObsState :=
  { connected := true, hasResponded := false, messageCountAtQuestion := n }

/-- Observation state at the point an emission has happened. -/
def emitState (st : ObsState) : ObsState :=
  { st with connected := false, hasResponded := true }

/-- The 180-second `observationTimeout` callback: tears the cycle
down when no response has been processed. -/
def observationTimeoutFires (st : ObsState) : ObsState :=
  if st.hasResponded then st
  else { st with connected := false, hasResponded := false }

/- ### Gemini adapter (`src/unnamed/part_001`)

One `MutationObserver` callback invocation is driven by the DOM data
it reads: the count of `model-response` elements, the trimmed text of
the first qualifying `pre code` block of the newest one (if any), the
newest element's trimmed `textContent`, whether it is still streaming,
and the elapsed milliseconds since `observationStartTime`. -/

structure GeminiMutation where
  messageCount : Nat
  codeBlockText : Option String
  rawText : String
  isGenerating : Bool
  time : Nat
deriving DecidableEq, Repr

/-- Text selected for the JSON-parse attempt: the qualifying code
block's text when present and non-empty, otherwise the raw text
narrowed by the greedy `/\{[\s\S]*\}/` when it matches. -/
def geminiRawExtract (m : GeminiMutation) : String :=
  let rt0 := match m.codeBlockText with
    | some t => t
    | none => ""
  if rt0 = "" then
    match greedyBrace m.rawText with
    | some j => j
    | none => m.rawText
  else rt0

/-- The extract after the normalisation chain, as handed to
`JSON.parse`. -/
def geminiExtract (m : GeminiMutation) : String :=
  cleanText (geminiRawExtract m)

/-- Outcome of the `try` block around `JSON.parse`: an emission, a
plain `return` (parse succeeded but the `answer` field is falsy), or
fall-through to the `catch` path (parse threw, or the parsed value is
`null` so that `parsed.answer` threw). -/
inductive TryOutcome where
  | emit (payload : String)
  | stop
  | fallthrough
deriving DecidableEq, Repr

/-- The `try` block of the Gemini mutation callback. -/
def geminiTryPath (m : GeminiMutation) : TryOutcome :=
  match jsonParse (geminiExtract m) with
  | none => .fallthrough
  | some .null => .fallthrough
  | some v => if jTruthyOpt (jGet "answer" v) then .emit (geminiExtract m) else .stop

/-- The fallback branch after the `catch`: blocked while the reply is
still streaming or within the 30-second grace window, otherwise the
lazy answer/explanation regex on the raw text. -/
def geminiFallbackPath (m : GeminiMutation) : Option String :=
  if m.isGenerating || m.time ≤ 30000 then none
  else lazyAnswerExpl m.rawText

/-- One invocation of the Gemini `MutationObserver` callback: returns
the successor state and the emitted response payload, if any. -/
def geminiStep (st : ObsState) (m : GeminiMutation) : ObsState × Option String :=
  if ¬ st.connected then (st, none)
  else if st.hasResponded then (st, none)
  else if m.messageCount = 0 then (st, none)
  else if m.messageCount ≤ st.messageCountAtQuestion then (st, none)
  else
    match geminiTryPath m with
    | .emit payload => (emitState st, some payload)
    | .stop => (st, none)
    | .fallthrough =>
      match geminiFallbackPath m with
      | some payload => (emitState st, some payload)
      | none => (st, none)

/-- A whole observation trace: the list of emissions over a sequence
of mutation callbacks. -/
def runGemini (st : ObsState) : List GeminiMutation → ObsState × List String
  | [] => (st, [])
  | m :: ms =>
    match geminiStep st m with
    | (st1, some p) =>
      match runGemini st1 ms with
      | (st2, ps) => (st2, p :: ps)
    | (st1, none) => runGemini st1 ms

/- ### DeepSeek adapter (second half of `src/unnamed/part_002`)

`checkForResponse` is run from both the `MutationObserver` callback
and the 1-second interval; both read the same DOM.  A candidate code
block is modelled by its trimmed text, whether `closest` found a
code-block parent, and the info-string elements of that parent; the
selector fan-out is flattened into one ordered candidate list. -/

structure DsBlock where
  text : String
  hasParent : Bool
  infoCount : Nat
  hasJsonInfo : Bool
deriving DecidableEq, Repr

structure DsMessage where
  blocks : List DsBlock
  text : String
deriving DecidableEq, Repr

structure DsMutation where
  messages : List DsMessage
  time : Nat
deriving DecidableEq, Repr

/-- `processResponse` of the DeepSeek adapter: normalise, parse, and
emit the cleaned text when the parsed value and its `answer` field are
truthy and no response has been processed yet. -/
def processResponseDs (st : ObsState) (responseText : String) : ObsState × Option String :=
  let cleaned := cleanText responseText
  match jsonParse cleaned with
  | none => (st, none)
  | some v =>
    if ¬ jTruthy v || ¬ jTruthyOpt (jGet "answer" v) || st.hasResponded then (st, none)
    else (emitState st, some cleaned)

/-- Whether a candidate code block is considered: it must have a
code-block parent and that parent must either advertise JSON or have
no info-string elements at all. -/
def dsBlockEligible (b : DsBlock) : Bool :=
  b.hasParent && (b.hasJsonInfo || b.infoCount = 0)

/-- The code-block loop of `checkForResponse` for one message. -/
def dsScanBlocks (st : ObsState) : List DsBlock → ObsState × Option String
  | [] => (st, none)
  | b :: rest =>
    if dsBlockEligible b && containsSub [braceL] b.text.data &&
        containsSub "\"answer\"".data b.text.data then
      match processResponseDs st b.text with
      | (st1, some out) => (st1, some out)
      | (st1, none) => dsScanBlocks st1 rest
    else dsScanBlocks st rest

/-- The second per-message path of `checkForResponse`: the lazy
`"answer"` regex over the message text, its match fed to
`processResponse`. -/
def dsSecondPath (st : ObsState) (msgText : String) : ObsState × Option String :=
  match lazyAnswer msgText with
  | some j => processResponseDs st j
  | none => (st, none)

/-- The late per-message path of `checkForResponse`: skipped inside
the 30-second grace window (`continue`), otherwise the raw
answer/explanation regex match is emitted without any parse. -/
def dsLatePath (time : Nat) (st : ObsState) (msgText : String) : ObsState × Option String :=
  if time ≤ 30000 then (st, none)
  else
    match lazyAnswerExpl msgText with
    | some k => if st.hasResponded then (st, none) else (emitState st, some k)
    | none => (st, none)

/-- The per-message loop of `checkForResponse`: code blocks first,
then the message-text regex fed to `processResponse`, then the late
raw-regex path; the first emission returns, anything else falls
through to the next message. -/
def dsScanMessages (time : Nat) (st : ObsState) : List DsMessage → ObsState × Option String
  | [] => (st, none)
  | msg :: rest =>
    match dsScanBlocks st msg.blocks with
    | (st1, some out) => (st1, some out)
    | (st1, none) =>
      match dsSecondPath st1 msg.text with
      | (st2, some out) => (st2, some out)
      | (st2, none) =>
        match dsLatePath time st2 msg.text with
        | (st3, some out) => (st3, some out)
        | (st3, none) => dsScanMessages time st3 rest

/-- One invocation of the DeepSeek `checkForResponse`: guarded by
`hasResponded` and by the baseline message count, then scans only the
messages that appeared after the question. -/
def checkForResponse (st : ObsState) (m : DsMutation) : ObsState × Option String :=
  if ¬ st.connected then (st, none)
  else if st.hasResponded then (st, none)
  else if m.messages.length ≤ st.messageCountAtQuestion then (st, none)
  else dsScanMessages m.time st (m.messages.drop st.messageCountAtQuestion)

/-- A whole DeepSeek observation trace. -/
def runDs (st : ObsState) : List DsMutation → ObsState × List String
  | [] => (st, [])
  | m :: ms =>
    match checkForResponse st m with
    | (st1, some p) =>
      match runDs st1 ms with
      | (st2, ps) => (st2, p :: ps)
    | (st1, none) => runDs st1 ms

/- ## Answer application (textbook content script,
first half of `src/unnamed/part_002`) -/

/-- Kind of a choice input element. -/
inductive InputKind where
  | radio
  | checkbox
deriving DecidableEq, Repr

/-- One `input[type=radio], input[type=checkbox]` inside the probe
container: its checked state and the trimmed text of the `.choiceText`
node of its enclosing label (`none` when the label or the text node is
missing). -/
structure ChoiceInput where
  kind : InputKind
  checked : Bool
  labelText : Option String
deriving DecidableEq, Repr

/-- `HTMLElement.click()` on a choice input: checking a radio button,
toggling a checkbox.  (The browser also unchecks same-group sibling
radios; that group behaviour is not part of this source and does not
affect the per-input properties stated below.) -/
def clickInput (c : ChoiceInput) : ChoiceInput :=
  match c.kind with
  | .radio => { c with checked := true }
  | .checkbox => { c with checked := !c.checked }

/-- One step of `answers.some(...)`: strict equality of a string with
a non-string is `false` without error, but `ans.replace` on a
non-string value throws (`error`), aborting the whole application. -/
def ansMatchesJs (choiceText : String) : Option Json → Except Unit Bool
  | some (.str a) => .ok (answerMatches choiceText a)
  | _ => .error ()

/-- `answers.some(ans => ...)` with its left-to-right short-circuit
evaluation and possible thrown `TypeError`. -/
def someMatches (choiceText : String) : List (Option Json) → Except Unit Bool
  | [] => .ok false
  | a :: rest =>
    match ansMatchesJs choiceText a with
    | .error _ => .error ()
    | .ok true => .ok true
    | .ok false => someMatches choiceText rest

/-- Cons a processed input onto the recursive result. -/
def twoMap (c : ChoiceInput) : List ChoiceInput × Bool → List ChoiceInput × Bool
  | (r, ab) => (c :: r, ab)

/-- The `choices.forEach` loop of the choice-selection step.  Returns
the updated inputs and whether a thrown `TypeError` aborted the loop
(inputs after the throwing one are left untouched; the surrounding
`catch` swallows the error). -/
def applyChoices (answers : List (Option Json)) : List ChoiceInput → List ChoiceInput × Bool
  | [] => ([], false)
  | c :: rest =>
    match c.labelText with
    | none => twoMap c (applyChoices answers rest)
    | some t =>
      if t = "" then twoMap c (applyChoices answers rest)
      else
        match someMatches t answers with
        | .error _ => (c :: rest, true)
        | .ok b =>
          twoMap (if b then clickInput c else c) (applyChoices answers rest)

/-- String coercion used by `Array.prototype.join` and by assignment
of a non-string to `input.value`: `undefined` and `null` render empty
in `join`; rationals are rendered approximately (numeric answers do
not occur in the verified properties). -/
def jsToString : Option Json → String
  | none => ""
  | some .null => ""
  | some (.bool b) => if b then "true" else "false"
  | some (.num q) =>
    if q.den = 1 then toString q.num else toString q.num ++ "/" ++ toString q.den
  | some (.str s) => s
  | some (.arr xs) => String.intercalate "," (xs.attach.map fun x => jsToString (some x.1))
  | some (.obj _) => "[object Object]"
  termination_by j => sizeOf j
  decreasing_by
    have h := List.sizeOf_lt_of_mem x.2
    simp only [Option.some.sizeOf_spec, Json.arr.sizeOf_spec]
    omega

/-- `answers.join("\n")` for the matching-question alert. -/
def answersJoinNl (answers : List (Option Json)) : String :=
  String.intercalate "\n" (answers.map jsToString)

/-- `Array.isArray(response.answer) ? response.answer
: [response.answer]`: the answer field normalised to an array before
any type-specific handling.  `none` elements are `undefined`. -/
def normalizeAnswers (resp : Json) : List (Option Json) :=
  match jGet "answer" resp with
  | some (.arr xs) => xs.map some
  | some j => [some j]
  | none => [none]

/-- Type marker class found on the probe container, in the order the
source tests them (`matching` and `fill_in_the_blank` have dedicated
branches; every other marker falls through to the choice loop). -/
inductive QMarker where
  | matching
  | fitb
  | choiceLike
deriving DecidableEq, Repr

/-- The DOM state of the textbook page that
`processChatGPTResponse` reads and mutates. -/
structure Page where
  topicOverview : Bool
  forcedLearning : Bool
  hasContainer : Bool
  marker : QMarker
  fitbInputs : List String
  choiceInputs : List ChoiceInput
deriving DecidableEq, Repr

/-- Externally visible actions of the content script while applying a
response. -/
inductive PageEffect where
  | continueClicked
  | forcedLearningFlow
  | alertShown (text : String)
deriving DecidableEq, Repr

/-- Single-slot correction context: the module variables
`lastIncorrectQuestion` / `lastCorrectAnswer`. -/
structure FlowState where
  lastIncorrectQuestion : Option String
  lastCorrectAnswer : Option Json

/-- The part of `processChatGPTResponse` after a successful
`JSON.parse` of a non-`null` response: normalise the answer to an
array, stop if the probe container is gone, clear the correction slot,
then apply the answer by question type.  (The asynchronous grading
continuation that follows selection is modelled by `gradeStep`.) -/
def applyAnswerPayload (fs : FlowState) (page : Page) (resp : Json) :
    FlowState × Page × List PageEffect :=
  let answers := normalizeAnswers resp
  if ¬ page.hasContainer then (fs, page, [])
  else
    let fs1 : FlowState := ⟨none, none⟩
    match page.marker with
    | .matching =>
      (fs1, page,
        [.alertShown ("Matching Question Solution:\n\n" ++ answersJoinNl answers ++
          "\n\nPlease input these matches manually, then click high confidence and next.")])
    | .fitb =>
      let inputs' := page.fitbInputs.mapIdx fun i v =>
        match (answers.get? i).join with
        | some j => if jTruthy j then jsToString (some j) else v
        | none => v
      (fs1, { page with fitbInputs := inputs' }, [])
    | .choiceLike =>
      (fs1, { page with choiceInputs := (applyChoices answers page.choiceInputs).1 }, [])

/-- `processChatGPTResponse(responseText)` up to the selection step:
topic-overview and forced-learning detours short-circuit before the
parse; a parse failure, or a `null` response (on which
`response.answer` throws), is swallowed by the `catch` with no state
change. -/
def processChatGPTResponseModel (fs : FlowState) (page : Page) (text : String) :
    FlowState × Page × List PageEffect :=
  if page.topicOverview then (fs, page, [.continueClicked])
  else if page.forcedLearning then (fs, page, [.forcedLearningFlow])
  else
    match jsonParse text with
    | none => (fs, page, [])
    | some .null => (fs, page, [])
    | some resp => applyAnswerPayload fs page resp

/- ## Correction context and prompt composition -/

/-- Result of `extractCorrectAnswer`: the question text and the
platform-revealed answer (a string, or an array for multi-answer
types). -/
structure CorrectionData where
  question : String
  answer : Json

/-- The grading continuation inside `processChatGPTResponse`: when the
incorrect marker is present and `extractCorrectAnswer` returned data
with a truthy answer, the correction slot is filled with the cleaned
answer; otherwise the slot is left as it is (it was already cleared
when the response was applied). -/
def gradeStep (fs : FlowState) (extracted : Option CorrectionData) : FlowState :=
  match extracted with
  | some c =>
    if jTruthy c.answer then
      { lastIncorrectQuestion := some c.question,
        lastCorrectAnswer := some (cleanAnswer c.answer) }
    else fs
  | none => fs

/-- The `previousCorrection` field that `parseQuestion` attaches to
the next question payload. -/
def questionCorrection (fs : FlowState) : Option CorrectionData :=
  match fs.lastIncorrectQuestion with
  | some q =>
    if q = "" then none
    else some { question := q, answer := fs.lastCorrectAnswer.getD .null }
  | none => none

/-- Options attached to a question payload. -/
inductive QOptions where
  | nothing
  | list (opts : List String)
  | matchLists (prompts choices : List String)

/-- A question payload as built by `parseQuestion`. -/
structure QuestionData where
  qtype : String
  question : String
  options : QOptions
  previousCorrection : Option CorrectionData

/-- Characters escaped by `JSON.stringify` inside string literals. -/
def jsStringEscape : List Char → List Char
  | [] => []
  | c :: rest =>
    if c = '"' then '\\' :: '"' :: jsStringEscape rest
    else if c = '\\' then '\\' :: '\\' :: jsStringEscape rest
    else if c = '\n' then '\\' :: 'n' :: jsStringEscape rest
    else if c = '\r' then '\\' :: 'r' :: jsStringEscape rest
    else if c = '\t' then '\\' :: 't' :: jsStringEscape rest
    else if c = '\x08' then '\\' :: 'b' :: jsStringEscape rest
    else if c = '\x0C' then '\\' :: 'f' :: jsStringEscape rest
    else if c.toNat < 0x20 then
      '\\' :: 'u' :: '0' :: '0' :: Nat.digitChar (c.toNat / 16) ::
        Nat.digitChar (c.toNat % 16) :: jsStringEscape rest
    else c :: jsStringEscape rest

/-- Model of `JSON.stringify` on parsed values (used only to embed a
correction answer into the prompt text). -/
def jsonStringify : Json → String
  | .null => "null"
  | .bool b => if b then "true" else "false"
  | .num q =>
    if q.den = 1 then toString q.num else toString q.num ++ "/" ++ toString q.den
  | .str s => String.mk ('"' :: jsStringEscape s.data ++ ['"'])
  | .arr xs =>
    "[" ++ String.intercalate "," (xs.attach.map fun x => jsonStringify x.1) ++ "]"
  | .obj fs =>
    String.mk [braceL] ++
      String.intercalate ","
        (fs.attach.map fun x => String.mk ('"' :: jsStringEscape x.1.1.data ++ ['"']) ++ ":" ++ jsonStringify x.1.2) ++
      String.mk [braceR]
  termination_by j => sizeOf j
  decreasing_by
  · have h := List.sizeOf_lt_of_mem x.2
    simp only [Json.arr.sizeOf_spec]
    omega
  · obtain ⟨⟨k, v⟩, hm⟩ := x
    have h := List.sizeOf_lt_of_mem hm
    simp only [Prod.mk.sizeOf_spec] at h
    simp only [Json.obj.sizeOf_spec]
    omega

/-- `opts.map((o, i) => (i+1) + ". " + o).join("\n")`. -/
def enumerateLines (xs : List String) : String :=
  String.intercalate "\n" (xs.mapIdx fun i o => toString (i + 1) ++ ". " ++ o)

/-- Option lists of a payload, with the empty default. -/
def QOptions.listOrEmpty : QOptions → List String
  | .list opts => opts
  | _ => []

/-- `insertQuestion`'s prompt text (`src/unnamed/part_001`): the
type/question header, the optional correction preamble prepended in
front of it, the type-specific options section, and the trailing
JSON-format instruction. -/
def composePrompt (q : QuestionData) : String :=
  let base := "Type: " ++ q.qtype ++ "\nQuestion: " ++ q.question
  let base :=
    match q.previousCorrection with
    | some c =>
      if c.question ≠ "" ∧ jTruthy c.answer then
        "CORRECTION FROM PREVIOUS ANSWER: For the question \"" ++ c.question ++
          "\", your answer was incorrect. The correct answer was: " ++
          jsonStringify c.answer ++ "\n\nNow answer this new question:\n\n" ++ base
      else base
    | none => base
  let base :=
    if q.qtype = "matching" then
      match q.options with
      | .matchLists prompts choices =>
        base ++ "\nPrompts:\n" ++ enumerateLines prompts ++
          "\nChoices:\n" ++ enumerateLines choices ++
          "\n\nPlease match each prompt with the correct choice. Format your answer as an array where each element is 'Prompt -> Choice'."
      | _ => base
    else if q.qtype = "fill_in_the_blank" then
      base ++ "\n\nThis is a fill in the blank question. If there are multiple blanks, provide answers as an array in order of appearance. For a single blank, you can provide a string."
    else if ¬ q.options.listOrEmpty.isEmpty then
      base ++ "\nOptions:\n" ++ enumerateLines q.options.listOrEmpty ++
        "\n\nIMPORTANT: Your answer must EXACTLY match one of the above options. Do not include numbers in your answer. If there are periods, include them."
    else base
  base ++ "\n\nPlease provide your answer in JSON format with keys \"answer\" and \"explanation\". Explanations should be no more than one sentence. DO NOT acknowledge the correction in your response, only answer the new question."

/- ## Orchestrator (`src/background/background.js`)

`processQuestion` is modelled as a function of the background state,
the incoming message, and an environment fixing what the browser
returns during this invocation: the tabs found by `findAndStoreTabs`,
the configured provider, whether the two windows coincide, and whether
each `sendMessageWithRetry` eventually succeeds (after its internal
3 × 1000 ms retries).  Effects record what was delivered or focused;
a failed delivery produces no effect and surfaces as the rejection
handled by the `catch` block. -/

structure BgState where
  processingQuestion : Bool
  textbookTabId : Option Nat
  aiTabId : Option Nat
  aiType : String
deriving DecidableEq, Repr

structure BgEnv where
  foundTextbookTab : Option Nat
  foundAiTab : Option Nat
  aiModel : String
  sameWindow : Bool
  alertDelivery : Bool
  questionDelivery : Bool
  lastActiveTab : Option Nat
deriving DecidableEq, Repr

/-- The question-ready message, with the sender tab recorded by the
message listener. -/
structure QuestionMsg where
  question : String
  sourceTabId : Option Nat
deriving DecidableEq, Repr

/-- Observable actions of `processQuestion`. -/
inductive BgEffect where
  | alertMessage (tab : Nat) (text : String)
  | receiveQuestion (tab : Nat) (question : String)
  | focusTab (tab : Nat)
  | scheduledRefocus (tab : Nat)
deriving DecidableEq, Repr

/-- `findAndStoreTabs`: the tab slots are overwritten only when a
matching tab is found; `aiType` is set to the configured model
unconditionally.  (Content-script injection is a no-op on this
state.) -/
def findAndStoreTabs (env : BgEnv) (st : BgState) : BgState :=
  { st with
    textbookTabId :=
      match env.foundTextbookTab with
      | some t => some t
      | none => st.textbookTabId
    aiTabId :=
      match env.foundAiTab with
      | some t => some t
      | none => st.aiTabId
    aiType := env.aiModel }

/-- The provider-specific alert text of the missing-assistant-tab
branch. -/
def missingTabAlert (aiType : String) : String :=
  "Please open " ++ aiType ++ " in another tab before using automation."

/-- The provider-specific alert text of the delivery-failure
`catch` branch. -/
def deliveryFailureAlert (aiType : String) : String :=
  "Error communicating with " ++ aiType ++
    ". Please make sure it is open in another tab (You may need to refresh the page)"

/-- The happy-path continuation of `processQuestion` once the AI tab
is known: optional focus, question delivery (with the `catch`/`finally`
of the surrounding `try`), and the scheduled refocus to the user's
previous tab. -/
def processQuestionSend (env : BgEnv) (st : BgState) (msg : QuestionMsg) (ai : Nat) :
    BgState × List BgEffect :=
  let st2 :=
    match st.textbookTabId with
    | none => { st with textbookTabId := msg.sourceTabId }
    | some _ => st
  let st3 := findAndStoreTabs env st2
  let focusFx : List BgEffect := if env.sameWindow then [.focusTab ai] else []
  if env.questionDelivery then
    let refocusFx : List BgEffect :=
      if ¬ env.sameWindow then []
      else
        match env.lastActiveTab with
        | none => []
        | some l => if l = ai then [] else [.scheduledRefocus l]
    ({ st3 with processingQuestion := false },
      focusFx ++ [.receiveQuestion ai msg.question] ++ refocusFx)
  else
    match st3.textbookTabId with
    | none => ({ st3 with processingQuestion := false }, focusFx)
    | some t =>
      if env.alertDelivery then
        ({ st3 with processingQuestion := false },
          focusFx ++ [.alertMessage t (deliveryFailureAlert st3.aiType)])
      else ({ st3 with processingQuestion := false }, focusFx)

/-- `processQuestion`: re-entrant calls are no-ops; otherwise resolve
tabs, abort with a provider alert when the AI tab is missing, else
relay the question.  The `finally` clause clears `processingQuestion`
on every path. -/
def processQuestion (env : BgEnv) (st : BgState) (msg : QuestionMsg) :
    BgState × List BgEffect :=
  if st.processingQuestion then (st, [])
  else
    let st1 := findAndStoreTabs env { st with processingQuestion := true }
    match st1.aiTabId with
    | none =>
      match st1.textbookTabId with
      | some t =>
        if env.alertDelivery then
          ({ st1 with processingQuestion := false },
            [.alertMessage t (missingTabAlert st1.aiType)])
        else
          ({ st1 with processingQuestion := false }, [])
      | none => ({ st1 with processingQuestion := false }, [])
    | some ai => processQuestionSend env st1 msg ai

/- ## Helper lemmas -/

/-- An emission whose payload carries parse evidence: the emitted text
itself parses to a truthy value with a truthy `answer` field. -/
def parsedEmission (out : String) : Prop :=
  ∃ v, jsonParse out = some v ∧ jTruthy v = true ∧ jTruthyOpt (jGet "answer" v) = true

theorem emitState_connected (st : ObsState) : (emitState st).connected = false := rfl

theorem geminiStep_disconnected (st : ObsState) (m : GeminiMutation)
    (h : st.connected = false) : geminiStep st m = (st, none) := by
  simp [geminiStep, h]

theorem geminiStep_cases (st : ObsState) (m : GeminiMutation) :
    geminiStep st m = (st, none) ∨ ∃ p, geminiStep st m = (emitState st, some p) := by
  unfold geminiStep
  repeat' split
  all_goals
    first
      | exact Or.inl rfl
      | (rename_i p _
         exact Or.inr ⟨p, rfl⟩)

theorem runGemini_disconnected (st : ObsState) (ms : List GeminiMutation)
    (h : st.connected = false) : runGemini st ms = (st, []) := by
  induction ms with
  | nil => rfl
  | cons m ms ih => simp [runGemini, geminiStep_disconnected st m h, ih]

theorem runGemini_len_le_one (st : ObsState) (ms : List GeminiMutation) :
    (runGemini st ms).2.length ≤ 1 := by
  induction ms generalizing st with
  | nil => simp [runGemini]
  | cons m ms ih =>
    rcases geminiStep_cases st m with h | ⟨p, h⟩
    · simpa [runGemini, h] using ih st
    · simp [runGemini, h, runGemini_disconnected (emitState st) ms rfl]

theorem geminiTryPath_emit_parsed (m : GeminiMutation) (out : String)
    (h : geminiTryPath m = .emit out) :
    out = geminiExtract m ∧
      ∃ v, jsonParse (geminiExtract m) = some v ∧ v ≠ Json.null ∧
        jTruthyOpt (jGet "answer" v) = true := by
  simp only [geminiTryPath] at h
  split at h
  · exact absurd h (by simp)
  · exact absurd h (by simp)
  · rename_i v hnull hp
    split_ifs at h with ht
    cases h
    exact ⟨rfl, v, hp, fun hc => hnull hc, ht⟩

theorem geminiTryPath_emit_of_parse (m : GeminiMutation) (v : Json)
    (hp : jsonParse (geminiExtract m) = some v) (hnull : v ≠ Json.null)
    (ht : jTruthyOpt (jGet "answer" v) = true) :
    geminiTryPath m = .emit (geminiExtract m) := by
  simp only [geminiTryPath]
  split
  · rename_i hq
    rw [hp] at hq
    cases hq
  · rename_i hq
    rw [hp] at hq
    cases hq
    exact absurd rfl hnull
  · rename_i w hwnull hq
    rw [hp] at hq
    cases hq
    rw [if_pos ht]

theorem geminiStep_emit_shape (st : ObsState) (m : GeminiMutation) (out : String)
    (h : (geminiStep st m).2 = some out) :
    geminiTryPath m = .emit out ∨
      (m.isGenerating = false ∧ 30000 < m.time ∧
        lazyAnswerExpl m.rawText = some out) := by
  unfold geminiStep at h
  split_ifs at h with h1 h2 h3 h4
  · split at h
    · rename_i p hpth
      simp only [Option.some.injEq] at h
      subst h
      exact Or.inl hpth
    · simp at h
    · rename_i hpth
      split at h
      · rename_i p hfb
        simp only [Option.some.injEq] at h
        subst h
        have hcond : ¬ (m.isGenerating || decide (m.time ≤ 30000)) = true := by
          intro hc
          simp only [geminiFallbackPath, hc, if_true] at hfb
          cases hfb
        simp only [Bool.or_eq_true, decide_eq_true_eq, not_or, Bool.not_eq_true] at hcond
        refine Or.inr ⟨hcond.1, by omega, ?_⟩
        simp only [geminiFallbackPath] at hfb
        split_ifs at hfb with hg
        exact hfb
      · simp at h

theorem geminiStep_emits (st : ObsState) (m : GeminiMutation) (p : String)
    (hc : st.connected = true) (hr : st.hasResponded = false)
    (hcount : st.messageCountAtQuestion < m.messageCount)
    (he : geminiTryPath m = .emit p) :
    geminiStep st m = (emitState st, some p) := by
  have h0 : ¬ m.messageCount = 0 := by omega
  have h1 : ¬ m.messageCount ≤ st.messageCountAtQuestion := by omega
  simp [geminiStep, hc, hr, h0, h1, he]

theorem processResponseDs_cases (st : ObsState) (t : String) :
    processResponseDs st t = (st, none) ∨
      processResponseDs st t = (emitState st, some (cleanText t)) := by
  simp only [processResponseDs]
  split
  · exact Or.inl rfl
  · split_ifs with h2
    · exact Or.inl rfl
    · exact Or.inr rfl

theorem processResponseDs_emit_parsed (st : ObsState) (t : String) (st' : ObsState)
    (out : String) (h : processResponseDs st t = (st', some out)) :
    out = cleanText t ∧ st' = emitState st ∧ st.hasResponded = false ∧
      parsedEmission out := by
  simp only [processResponseDs] at h
  split at h
  · simp at h
  · rename_i v hp
    split_ifs at h with h2
    · simp at h
    · simp only [Prod.mk.injEq, Option.some.injEq] at h
      obtain ⟨hst, hout⟩ := h
      simp only [Bool.or_eq_true, decide_eq_true_eq, not_or, Bool.not_eq_true,
        not_not, Bool.not_eq_false] at h2
      obtain ⟨⟨hv, ha⟩, hr⟩ := h2
      refine ⟨hout.symm, hst.symm, hr, v, ?_, hv, ha⟩
      rw [hout] at hp
      exact hp

theorem processResponseDs_accepts (st : ObsState) (t : String)
    (hr : st.hasResponded = false) (v : Json)
    (hp : jsonParse (cleanText t) = some v) (hv : jTruthy v = true)
    (ha : jTruthyOpt (jGet "answer" v) = true) :
    processResponseDs st t = (emitState st, some (cleanText t)) := by
  simp only [processResponseDs]
  split
  · rename_i hq
    rw [hp] at hq
    cases hq
  · rename_i w hq
    rw [hp] at hq
    cases hq
    rw [if_neg]
    simp [hv, ha, hr]

theorem dsScanBlocks_spec (blocks : List DsBlock) (st : ObsState) :
    dsScanBlocks st blocks = (st, none) ∨
      ∃ out, dsScanBlocks st blocks = (emitState st, some out) ∧ parsedEmission out := by
  induction blocks generalizing st with
  | nil => exact Or.inl rfl
  | cons b rest ih =>
    unfold dsScanBlocks
    split_ifs with hb
    · rcases processResponseDs_cases st b.text with hc | hc
      · rw [hc]
        exact ih st
      · rw [hc]
        obtain ⟨_, _, _, hev⟩ := processResponseDs_emit_parsed st b.text _ _ hc
        exact Or.inr ⟨cleanText b.text, rfl, hev⟩
    · exact ih st

theorem dsSecondPath_spec (st : ObsState) (t : String) :
    dsSecondPath st t = (st, none) ∨
      ∃ out, dsSecondPath st t = (emitState st, some out) ∧ parsedEmission out := by
  unfold dsSecondPath
  split
  · rename_i j hl
    rcases processResponseDs_cases st j with hc | hc
    · exact Or.inl hc
    · obtain ⟨_, _, _, hev⟩ := processResponseDs_emit_parsed st j _ _ hc
      exact Or.inr ⟨cleanText j, hc, hev⟩
  · exact Or.inl rfl

theorem dsLatePath_spec (time : Nat) (st : ObsState) (t : String) :
    dsLatePath time st t = (st, none) ∨
      ∃ out, dsLatePath time st t = (emitState st, some out) ∧ 30000 < time := by
  unfold dsLatePath
  split_ifs with htime hresp
  · exact Or.inl rfl
  · left
    cases lazyAnswerExpl t <;> rfl
  · split
    · rename_i k hle
      exact Or.inr ⟨k, rfl, by omega⟩
    · exact Or.inl rfl

theorem dsScanMessages_spec (time : Nat) (msgs : List DsMessage) (st : ObsState) :
    dsScanMessages time st msgs = (st, none) ∨
      ∃ out, dsScanMessages time st msgs = (emitState st, some out) ∧
        (time ≤ 30000 → parsedEmission out) := by
  induction msgs generalizing st with
  | nil => exact Or.inl rfl
  | cons msg rest ih =>
    unfold dsScanMessages
    split
    · rename_i st1 out heq
      rcases dsScanBlocks_spec msg.blocks st with hc | ⟨o, hc, hev⟩
      · rw [heq] at hc
        simp at hc
      · rw [heq] at hc
        injection hc with he1 he2
        injection he2 with he2
        rw [he1, he2]
        exact Or.inr ⟨o, rfl, fun _ => hev⟩
    · rename_i st1 heq
      rcases dsScanBlocks_spec msg.blocks st with hc | ⟨o, hc, hev⟩
      case inr.intro.intro =>
        rw [heq] at hc
        simp at hc
      rw [heq] at hc
      injection hc with he1 he2
      rw [he1]
      split
      · rename_i st2 out heq2
        rcases dsSecondPath_spec st msg.text with hc2 | ⟨o2, hc2, hev2⟩
        · rw [heq2] at hc2
          simp at hc2
        · rw [heq2] at hc2
          injection hc2 with hf1 hf2
          injection hf2 with hf2
          rw [hf1, hf2]
          exact Or.inr ⟨o2, rfl, fun _ => hev2⟩
      · rename_i st2 heq2
        rcases dsSecondPath_spec st msg.text with hc2 | ⟨o2, hc2, hev2⟩
        case inr.intro.intro =>
          rw [heq2] at hc2
          simp at hc2
        rw [heq2] at hc2
        injection hc2 with hf1 hf2
        rw [hf1]
        split
        · rename_i st3 out heq3
          rcases dsLatePath_spec time st msg.text with hc3 | ⟨o3, hc3, hlate⟩
          · rw [heq3] at hc3
            simp at hc3
          · rw [heq3] at hc3
            injection hc3 with hg1 hg2
            injection hg2 with hg2
            rw [hg1, hg2]
            exact Or.inr ⟨o3, rfl, fun h30 => by omega⟩
        · rename_i st3 heq3
          rcases dsLatePath_spec time st msg.text with hc3 | ⟨o3, hc3, hlate⟩
          case inr.intro.intro =>
            rw [heq3] at hc3
            simp at hc3
          rw [heq3] at hc3
          injection hc3 with hg1 hg2
          rw [hg1]
          exact ih st

theorem checkForResponse_spec (st : ObsState) (m : DsMutation) :
    checkForResponse st m = (st, none) ∨
      ∃ out, checkForResponse st m = (emitState st, some out) ∧
        (m.time ≤ 30000 → parsedEmission out) := by
  unfold checkForResponse
  split_ifs with h1 h2 h3
  all_goals
    first
      | exact Or.inl rfl
      | exact dsScanMessages_spec m.time (m.messages.drop st.messageCountAtQuestion) st

theorem checkForResponse_disconnected (st : ObsState) (m : DsMutation)
    (h : st.connected = false) : checkForResponse st m = (st, none) := by
  simp [checkForResponse, h]

theorem runDs_disconnected (st : ObsState) (ms : List DsMutation)
    (h : st.connected = false) : runDs st ms = (st, []) := by
  induction ms with
  | nil => rfl
  | cons m ms ih => simp [runDs, checkForResponse_disconnected st m h, ih]

theorem runDs_len_le_one (st : ObsState) (ms : List DsMutation) :
    (runDs st ms).2.length ≤ 1 := by
  induction ms generalizing st with
  | nil => simp [runDs]
  | cons m ms ih =>
    rcases checkForResponse_spec st m with h | ⟨p, h, _⟩
    · simpa [runDs, h] using ih st
    · simp [runDs, h, runDs_disconnected (emitState st) ms rfl]

/- ## The claims -/

/-- Claim C2 (confirmed).  A `processQuestion` invocation while a
prior one is in flight returns immediately with no state change and no
effects; every invocation that proceeds leaves the in-flight flag
cleared, on the success, missing-tab and delivery-failure paths
alike. -/
theorem processQuestion_guard_and_cleanup :
    (∀ (env : BgEnv) (st : BgState) (msg : QuestionMsg),
      st.processingQuestion = true → processQuestion env st msg = (st, [])) ∧
    (∀ (env : BgEnv) (st : BgState) (msg : QuestionMsg),
      st.processingQuestion = false →
        (processQuestion env st msg).1.processingQuestion = false) := by
  constructor
  · intro env st msg h
    simp [processQuestion, h]
  · intro env st msg h
    unfold processQuestion processQuestionSend
    simp only [h, Bool.false_eq_true, if_false]
    repeat' split
    all_goals rfl

/-- Witness for C2: a concrete invocation with the flag set is a
no-op. -/
theorem processQuestion_guard_and_cleanup_witness :
    processQuestion ⟨some 1, some 2, "chatgpt", true, true, true, none⟩
        ⟨true, some 1, some 2, "chatgpt"⟩ ⟨"q", some 1⟩ =
      (⟨true, some 1, some 2, "chatgpt"⟩, []) :=
  processQuestion_guard_and_cleanup.1 _ _ _ rfl

/-- Claim C3 (confirmed).  The option-matching predicate holds exactly
when the option equals the candidate, the two are equal after each
has one trailing period stripped, or the option equals the candidate
with a period appended. -/
theorem answerMatches_iff (O A : String) :
    answerMatches O A = true ↔
      O = A ∨ stripTrailingPeriod O = stripTrailingPeriod A ∨ O = A ++ "." := by
  unfold answerMatches
  split_ifs with h1 h2 h3 <;> simp_all

/-- Claim C9 (confirmed).  Starting automation with no assistant tab
open produces exactly one alert naming the selected provider on the
textbook tab — no question message, no focus change — and the
in-flight flag ends cleared. -/
theorem missing_ai_tab_single_alert (env : BgEnv) (st : BgState) (msg : QuestionMsg)
    (t : Nat)
    (h1 : st.processingQuestion = false)
    (h2 : env.foundAiTab = none) (h3 : st.aiTabId = none)
    (h4 : env.foundTextbookTab = some t ∨
      (env.foundTextbookTab = none ∧ st.textbookTabId = some t))
    (h5 : env.alertDelivery = true) :
    processQuestion env st msg =
      ({ processingQuestion := false, textbookTabId := some t,
         aiTabId := none, aiType := env.aiModel },
        [.alertMessage t (missingTabAlert env.aiModel)]) := by
  obtain ⟨pq, tb, ai, ty⟩ := st
  simp only at h1 h3
  subst h1
  subst h3
  rcases h4 with h4 | ⟨h4a, h4b⟩
  · simp [processQuestion, findAndStoreTabs, h2, h4, h5]
  · simp only at h4b
    subst h4b
    simp [processQuestion, findAndStoreTabs, h2, h4a, h5]

/-- Witness for C9. -/
theorem missing_ai_tab_single_alert_witness :
    processQuestion ⟨none, none, "chatgpt", false, true, true, none⟩
        ⟨false, some 7, none, "chatgpt"⟩ ⟨"q", some 7⟩ =
      (⟨false, some 7, none, "chatgpt"⟩,
        [.alertMessage 7 (missingTabAlert "chatgpt")]) :=
  missing_ai_tab_single_alert _ _ _ 7 rfl rfl rfl (Or.inr ⟨rfl, rfl⟩) rfl

/-- Claim C10 (confirmed).  A response whose `answer` is the string
`s` is applied exactly like one whose `answer` is the one-element
array `[s]`: the answer is normalised to an array before any
type-specific handling. -/
theorem answer_normalized_before_dispatch :
    (∀ (s : String) (resp1 resp2 : Json) (fs : FlowState) (page : Page),
      jGet "answer" resp1 = some (Json.str s) →
      jGet "answer" resp2 = some (Json.arr [Json.str s]) →
      applyAnswerPayload fs page resp1 = applyAnswerPayload fs page resp2) ∧
    (∀ (s : String) (e : Json) (fs : FlowState) (page : Page),
      applyAnswerPayload fs page
          (Json.obj [("answer", Json.str s), ("explanation", e)]) =
        applyAnswerPayload fs page
          (Json.obj [("answer", Json.arr [Json.str s]), ("explanation", e)])) ∧
    (∀ s : String,
      normalizeAnswers (Json.obj [("answer", Json.str s)]) = [some (Json.str s)] ∧
      normalizeAnswers (Json.obj [("answer", Json.arr [Json.str s])]) =
        [some (Json.str s)]) := by
  refine ⟨?_, ?_, ?_⟩
  · intro s resp1 resp2 fs page h1 h2
    have hn1 : normalizeAnswers resp1 = [some (Json.str s)] := by
      simp [normalizeAnswers, h1]
    have hn2 : normalizeAnswers resp2 = [some (Json.str s)] := by
      simp [normalizeAnswers, h2]
    simp only [applyAnswerPayload]
    rw [hn1, hn2]
  · intro s e fs page
    rfl
  · intro s
    exact ⟨rfl, rfl⟩

/-- Witness for C10. -/
theorem answer_normalized_before_dispatch_witness :
    applyAnswerPayload ⟨none, none⟩
        ⟨false, false, true, .choiceLike, [], []⟩
        (Json.obj [("answer", Json.str "B")]) =
      applyAnswerPayload ⟨none, none⟩
        ⟨false, false, true, .choiceLike, [], []⟩
        (Json.obj [("answer", Json.arr [Json.str "B"])]) :=
  answer_normalized_before_dispatch.1 "B" _ _ _ _ rfl rfl

/-- Claim C6 (confirmed).  With the random draw `r ∈ [0,1)` made
explicit: both bounds zero gives a zero delay; a minimum above the
maximum is clamped to the maximum; otherwise the generated delay in
milliseconds always lies within `[1000·min, 1000·max]`, i.e. within
`[min, max]` seconds. -/
theorem generateRandomDelay_spec (a b : ℤ) (r : ℚ) (h0 : 0 ≤ r) (h1 : r < 1) :
    ((a = 0 ∧ b = 0) → generateRandomDelay a b r = 0) ∧
    (b < a → generateRandomDelay a b r = generateRandomDelay b b r) ∧
    (a ≤ b →
      1000 * a ≤ generateRandomDelay a b r ∧
        generateRandomDelay a b r ≤ 1000 * b) := by
  have floor01 : ⌊r * 1⌋ = 0 := by
    rw [mul_one, Int.floor_eq_zero_iff]
    simp only [Set.mem_Ico]
    exact ⟨h0, h1⟩
  refine ⟨?_, ?_, ?_⟩
  · rintro ⟨ha, hb⟩
    simp [generateRandomDelay, ha, hb]
  · intro hlt
    have hne : ¬ (a = 0 ∧ b = 0) := by rintro ⟨ha, hb⟩; omega
    by_cases hb : b = 0
    · subst hb
      simp [generateRandomDelay, hne, hlt]
    · have hgt : a > b := hlt
      have hbb : ¬ ((b : ℤ) > b) := lt_irrefl b
      have hzero : ¬ (b * 1000 = 0 ∧ b * 1000 = 0) := by
        rintro ⟨hz, _⟩
        exact hb (by omega)
      simp only [generateRandomDelay, hne, if_false, hgt, if_true, hzero,
        if_neg hbb, if_neg (by rintro ⟨hz1, hz2⟩; exact hb (by omega) : ¬ (b = 0 ∧ b = 0))]
  · intro hab
    by_cases hz : a = 0 ∧ b = 0
    · obtain ⟨ha, hb⟩ := hz
      simp [generateRandomDelay, ha, hb]
    · have hnot : ¬ a > b := by omega
      have hzero : ¬ (a * 1000 = 0 ∧ b * 1000 = 0) := by
        rintro ⟨hz1, hz2⟩
        exact hz ⟨by omega, by omega⟩
      simp only [generateRandomDelay, hz, if_false, hnot, hzero]
      set N : ℤ := b * 1000 - a * 1000 + 1 with hN
      have hNpos : 0 < N := by omega
      have hcast : ((b * 1000 : ℤ) : ℚ) - ((a * 1000 : ℤ) : ℚ) + 1 = (N : ℚ) := by
        rw [hN]
        push_cast
        ring
      rw [hcast]
      have hfl0 : 0 ≤ ⌊r * (N : ℚ)⌋ := by
        apply Int.floor_nonneg.mpr
        have : (0 : ℚ) ≤ (N : ℚ) := by exact_mod_cast le_of_lt hNpos
        exact mul_nonneg h0 this
      have hflN : ⌊r * (N : ℚ)⌋ < N := by
        rw [Int.floor_lt]
        have hNq : (0 : ℚ) < (N : ℚ) := by exact_mod_cast hNpos
        calc r * (N : ℚ) < 1 * (N : ℚ) := by
              exact mul_lt_mul_of_pos_right h1 hNq
          _ = (N : ℚ) := one_mul _
      constructor <;> omega

/-- Witness for C6: a concrete draw stays inside the configured
bounds. -/
theorem generateRandomDelay_spec_witness :
    1000 * 22 ≤ generateRandomDelay 22 97 (1 / 2) ∧
      generateRandomDelay 22 97 (1 / 2) ≤ 1000 * 97 :=
  (generateRandomDelay_spec 22 97 (1 / 2) (by norm_num) (by norm_num)).2.2
    (by norm_num)

theorem twoMap_eq (c : ChoiceInput) (p : List ChoiceInput × Bool) :
    twoMap c p = (c :: p.1, p.2) := by
  cases p
  rfl

theorem clickInput_label (c : ChoiceInput) :
    (clickInput c).labelText = c.labelText := by
  cases c with
  | mk k ch l => cases k <;> rfl

theorem clickInput_radio_idem (c : ChoiceInput) (h : c.kind = InputKind.radio) :
    clickInput (clickInput c) = clickInput c := by
  cases c with
  | mk k ch l =>
    simp only at h
    subst h
    rfl

/-- Claim C4, counterexample.  A checkbox already in the state the
payload selects is toggled off by a second application of the same
payload: `click()` on a checked checkbox unchecks it. -/
theorem choice_selection_not_idempotent_cex :
    (applyChoices [some (Json.str "A")]
        ((applyChoices [some (Json.str "A")]
          [⟨InputKind.checkbox, false, some "A"⟩]).1)).1 ≠
      (applyChoices [some (Json.str "A")]
        [⟨InputKind.checkbox, false, some "A"⟩]).1 := by
  decide

/-- Claim C4 (amended).  The choice-selection step is idempotent for
radio inputs: a second application of the same payload to its own
output is a no-op.  For a matching checkbox each application toggles
the checked state, so selection is not idempotent for checkboxes. -/
theorem choice_selection_radio_idempotent :
    (∀ (answers : List (Option Json)) (inputs : List ChoiceInput),
      (∀ c ∈ inputs, c.kind = InputKind.radio) →
      applyChoices answers ((applyChoices answers inputs).1) =
        applyChoices answers inputs) ∧
    (∀ (b : Bool) (s : String), s ≠ "" →
      (applyChoices [some (Json.str s)] [⟨InputKind.checkbox, b, some s⟩]).1 =
        [⟨InputKind.checkbox, !b, some s⟩]) := by
  constructor
  · intro answers inputs
    induction inputs with
    | nil => intro _; rfl
    | cons c rest ih =>
      intro hall
      have hc : c.kind = InputKind.radio := hall c (List.mem_cons_self c rest)
      have hrest : ∀ x ∈ rest, x.kind = InputKind.radio :=
        fun x hx => hall x (List.mem_cons_of_mem c hx)
      have ihr := ih hrest
      cases hl : c.labelText with
      | none =>
        simp only [applyChoices, hl, twoMap_eq]
        rw [ihr]
      | some t =>
        by_cases ht : t = ""
        · subst ht
          simp only [applyChoices, hl, if_pos rfl, twoMap_eq]
          simp [ihr]
        · cases hm : someMatches t answers with
          | error e =>
            simp only [applyChoices, hl, if_neg ht, hm]
          | ok bb =>
            cases bb with
            | true =>
              have hl2 : (clickInput c).labelText = some t := by
                rw [clickInput_label, hl]
              simp only [applyChoices, hl, if_neg ht, hm, twoMap_eq, if_true]
              simp [hl2, if_neg ht, hm, clickInput_radio_idem c hc, ihr]
            | false =>
              simp only [applyChoices, hl, if_neg ht, hm, twoMap_eq]
              simp [hl, if_neg ht, hm, ihr]
  · intro b s hs
    simp [applyChoices, someMatches, ansMatchesJs, answerMatches, hs,
      clickInput, twoMap_eq]

/-- Witness for C4 (amended).  A matching checkbox is toggled on by
the first application. -/
theorem choice_selection_radio_idempotent_witness :
    (applyChoices [some (Json.str "A")]
        [⟨InputKind.checkbox, false, some "A"⟩]).1 =
      [⟨InputKind.checkbox, true, some "A"⟩] := by
  have h := choice_selection_radio_idempotent.2 false "A" (by decide)
  simpa using h

/-- Claim C7, counterexample.  The reply `{"answer":"A"}` parses to an
object with only the `answer` key — no `explanation` — yet it is
accepted and emitted, so acceptance does not require exactly the two
keys `answer` and `explanation`. -/
theorem processResponse_accepts_one_key_cex :
    (processResponseDs (startCycle 0) "\x7b\"answer\":\"A\"\x7d").2 =
        some "\x7b\"answer\":\"A\"\x7d" ∧
      jsonParse "\x7b\"answer\":\"A\"\x7d" =
        some (Json.obj [("answer", Json.str "A")]) ∧
      jGet "explanation" (Json.obj [("answer", Json.str "A")]) = none :=
  ⟨rfl, rfl, rfl⟩

/-- Claim C7 (amended).  The parse path accepts a reply exactly when
the cleaned text parses as JSON to a truthy value whose `answer` field
is truthy — no other key is checked and `explanation` is not required
— and an accepted `answer` that is a string is therefore never empty.
(After the grace window the fallback regex path can additionally emit
a fragment that was never parsed; see the C1 theorems.) -/
theorem processResponse_accept_characterisation :
    (∀ (st : ObsState) (t : String) (st' : ObsState) (out : String),
      processResponseDs st t = (st', some out) →
        out = cleanText t ∧ st.hasResponded = false ∧ parsedEmission out) ∧
    (∀ (st : ObsState) (t : String) (v : Json),
      st.hasResponded = false →
      jsonParse (cleanText t) = some v → jTruthy v = true →
      jTruthyOpt (jGet "answer" v) = true →
      processResponseDs st t = (emitState st, some (cleanText t))) ∧
    (∀ (v : Json) (s : String),
      jTruthyOpt (jGet "answer" v) = true →
      jGet "answer" v = some (Json.str s) → s ≠ "") ∧
    (∀ (m : GeminiMutation) (out : String),
      geminiTryPath m = .emit out →
        ∃ v, jsonParse out = some v ∧ jTruthyOpt (jGet "answer" v) = true) := by
  refine ⟨?_, ?_, ?_, ?_⟩
  · intro st t st' out h
    obtain ⟨hout, _, hr, hev⟩ := processResponseDs_emit_parsed st t st' out h
    exact ⟨hout, hr, hev⟩
  · intro st t v hr hp hv ha
    exact processResponseDs_accepts st t hr v hp hv ha
  · intro v s ha hg
    rw [hg] at ha
    simpa [jTruthyOpt, jTruthy] using ha
  · intro m out h
    obtain ⟨hout, v, hp, _, ha⟩ := geminiTryPath_emit_parsed m out h
    exact ⟨v, by rw [hout]; exact hp, ha⟩

/-- Witness for C7 (amended): a concrete accepted reply. -/
theorem processResponse_accept_characterisation_witness :
    processResponseDs (startCycle 2) "\x7b\"answer\":\"B\",\"explanation\":\"y\"\x7d" =
      (emitState (startCycle 2),
        some "\x7b\"answer\":\"B\",\"explanation\":\"y\"\x7d") :=
  processResponse_accept_characterisation.2.1 (startCycle 2) _
    (Json.obj [("answer", Json.str "B"), ("explanation", Json.str "y")])
    rfl rfl rfl rfl

/-- Claim C5 (confirmed).  Within the 30-second grace window an
emission happens only when the extracted text itself parses as JSON
with a truthy `answer` (the fallback raw-text regex never emits inside
the window, for either adapter), while direct JSON-parse success is
accepted at any time — the parse paths carry no time condition. -/
theorem grace_window_parse_gated :
    (∀ (st : ObsState) (m : GeminiMutation) (out : String),
      m.time ≤ 30000 → (geminiStep st m).2 = some out →
        out = geminiExtract m ∧
          ∃ v, jsonParse out = some v ∧ v ≠ Json.null ∧
            jTruthyOpt (jGet "answer" v) = true) ∧
    (∀ (st : ObsState) (m : GeminiMutation) (v : Json),
      st.connected = true → st.hasResponded = false →
      st.messageCountAtQuestion < m.messageCount →
      jsonParse (geminiExtract m) = some v → v ≠ Json.null →
      jTruthyOpt (jGet "answer" v) = true →
      (geminiStep st m).2 = some (geminiExtract m)) ∧
    (∀ (st : ObsState) (m : DsMutation) (out : String),
      m.time ≤ 30000 → (checkForResponse st m).2 = some out →
        parsedEmission out) ∧
    (∀ (st : ObsState) (t : String) (v : Json),
      st.hasResponded = false →
      jsonParse (cleanText t) = some v → jTruthy v = true →
      jTruthyOpt (jGet "answer" v) = true →
      processResponseDs st t = (emitState st, some (cleanText t))) := by
  refine ⟨?_, ?_, ?_, ?_⟩
  · intro st m out ht h
    rcases geminiStep_emit_shape st m out h with he | ⟨_, htime, _⟩
    · obtain ⟨hout, v, hp, hnull, ha⟩ := geminiTryPath_emit_parsed m out he
      exact ⟨hout, v, by rw [hout]; exact hp, hnull, ha⟩
    · omega
  · intro st m v hc hr hcount hp hnull ha
    have he := geminiTryPath_emit_of_parse m v hp hnull ha
    rw [geminiStep_emits st m (geminiExtract m) hc hr hcount he]
  · intro st m out ht h
    rcases checkForResponse_spec st m with hcase | ⟨o, hcase, hev⟩
    · rw [hcase] at h
      cases h
    · rw [hcase] at h
      injection h with h
      rw [← h]
      exact hev ht
  · intro st t v hr hp hv ha
    exact processResponseDs_accepts st t hr v hp hv ha

/-- Witness for C5: a direct JSON parse is accepted even at time
zero, right at submission. -/
theorem grace_window_parse_gated_witness :
    (geminiStep (startCycle 0)
        ⟨1, some "\x7b\"answer\":\"B\",\"explanation\":\"y\"\x7d", "", true, 0⟩).2 =
      some (geminiExtract
        ⟨1, some "\x7b\"answer\":\"B\",\"explanation\":\"y\"\x7d", "", true, 0⟩) :=
  grace_window_parse_gated.2.1 (startCycle 0)
    ⟨1, some "\x7b\"answer\":\"B\",\"explanation\":\"y\"\x7d", "", true, 0⟩
    (Json.obj [("answer", Json.str "B"), ("explanation", Json.str "y")])
    rfl rfl (by decide) rfl (fun hx => Json.noConfusion hx) rfl

/-- The mutation of the C1 counterexample: 31 seconds after
submission, the newest reply's text is a brace-delimited fragment that
mentions `"answer"` and `"explanation"` but is not valid JSON. -/
def gemCexMutation : GeminiMutation :=
  { messageCount := 1, codeBlockText := none,
    rawText := "\x7b\"answer\" \"explanation\"\x7d",
    isGenerating := false, time := 31000 }

/-- Claim C1, counterexample.  The fallback regex path emits (and
thereby terminates the cycle) at 31 s — before the 180-second timeout
— even though no JSON parse of the extracted reply text succeeded, so
the cycle does not terminate exactly on parse-success-or-timeout. -/
theorem gemini_emits_without_parse_cex :
    (geminiStep (startCycle 0) gemCexMutation).2 =
        some "\x7b\"answer\" \"explanation\"\x7d" ∧
      jsonParse "\x7b\"answer\" \"explanation\"\x7d" = none ∧
      jsonParse (geminiExtract gemCexMutation) = none ∧
      (geminiStep (startCycle 0) gemCexMutation).1.connected = false ∧
      gemCexMutation.time < 180000 :=
  ⟨rfl, rfl, rfl, rfl, by decide⟩

/-- Claim C1 (amended).  Per submission the observation cycle of
either adapter emits at most one response message, and a
disconnected (terminated) cycle never emits until a new submission
restarts it.  An emission of the Gemini callback arises either from
the JSON-parse path (extracted text parses to a non-null value with a
truthy `answer`) or — after the 30-second grace window, on a
non-streaming reply — from the fallback answer/explanation regex even
when that fragment is not valid JSON; every emission disconnects the
cycle, and the 180-second timeout disconnects a cycle that has not
responded. -/
theorem observation_cycle_single_shot :
    (∀ (st : ObsState) (ms : List GeminiMutation),
      (runGemini st ms).2.length ≤ 1) ∧
    (∀ (st : ObsState) (ms : List GeminiMutation),
      st.connected = false → (runGemini st ms).2 = []) ∧
    (∀ (st : ObsState) (ms : List DsMutation), (runDs st ms).2.length ≤ 1) ∧
    (∀ (st : ObsState) (ms : List DsMutation),
      st.connected = false → (runDs st ms).2 = []) ∧
    (∀ (st : ObsState) (m : GeminiMutation) (out : String),
      (geminiStep st m).2 = some out →
        geminiTryPath m = .emit out ∨
          (m.isGenerating = false ∧ 30000 < m.time ∧
            lazyAnswerExpl m.rawText = some out)) ∧
    (∀ (m : GeminiMutation) (out : String),
      geminiTryPath m = .emit out →
        out = geminiExtract m ∧
          ∃ v, jsonParse (geminiExtract m) = some v ∧ v ≠ Json.null ∧
            jTruthyOpt (jGet "answer" v) = true) ∧
    (∀ (st : ObsState) (m : GeminiMutation) (out : String),
      (geminiStep st m).2 = some out → (geminiStep st m).1.connected = false) ∧
    (∀ (st : ObsState) (m : DsMutation) (out : String),
      (checkForResponse st m).2 = some out →
        (checkForResponse st m).1.connected = false) ∧
    (∀ st : ObsState, st.hasResponded = false →
      (observationTimeoutFires st).connected = false) := by
  refine ⟨runGemini_len_le_one, ?_, runDs_len_le_one, ?_, ?_, ?_, ?_, ?_, ?_⟩
  · intro st ms h
    rw [runGemini_disconnected st ms h]
  · intro st ms h
    rw [runDs_disconnected st ms h]
  · intro st m out h
    exact geminiStep_emit_shape st m out h
  · intro m out h
    exact geminiTryPath_emit_parsed m out h
  · intro st m out h
    rcases geminiStep_cases st m with hc | ⟨p, hc⟩
    · rw [hc] at h
      cases h
    · rw [hc]
      rfl
  · intro st m out h
    rcases checkForResponse_spec st m with hc | ⟨o, hc, _⟩
    · rw [hc] at h
      cases h
    · rw [hc]
      rfl
  · intro st h
    simp [observationTimeoutFires, h]

/-- Witness for C1 (amended): a concrete disconnected cycle stays
silent over a mutation trace. -/
theorem observation_cycle_single_shot_witness :
    (runGemini ⟨false, false, 0⟩ [gemCexMutation, gemCexMutation]).2 = [] :=
  observation_cycle_single_shot.2.1 ⟨false, false, 0⟩
    [gemCexMutation, gemCexMutation] rfl

/-- The revealed correction of the C8 scenario. -/
def revealedParis : CorrectionData :=
  ⟨"Q1", Json.str "Field 1: Paris or Paris, France"⟩

/-- Correction slot after grading marks Q1 incorrect with the
revealed text. -/
def fsAfterIncorrect : FlowState := gradeStep ⟨none, none⟩ (some revealedParis)

/-- The next question, as `parseQuestion` builds it from the slot. -/
def nextQuestionParis : QuestionData :=
  ⟨"multiple_choice", "Q2", .list ["Paris", "London"],
    questionCorrection fsAfterIncorrect⟩

/-- The page showing the next (choice) question. -/
def parisPage : Page :=
  ⟨false, false, true, .choiceLike, [],
    [⟨.radio, false, some "Paris"⟩, ⟨.radio, false, some "London"⟩]⟩

/-- The assistant's reply to the next question. -/
def parisReply : String := "\x7b\"answer\":\"Paris\",\"explanation\":\"capital\"\x7d"

/-- Claim C8 (confirmed).  The revealed text `Field 1: Paris or
Paris, France` is cleaned to `Paris` (prefix stripped, first
alternative taken), stored in the single correction slot, embedded in
the next question's prompt preamble, and cleared again when the
response to that next prompt is processed. -/
theorem correction_context_roundtrip :
    cleanAnswer (Json.str "Field 1: Paris or Paris, France") = Json.str "Paris" ∧
    fsAfterIncorrect.lastIncorrectQuestion = some "Q1" ∧
    fsAfterIncorrect.lastCorrectAnswer = some (Json.str "Paris") ∧
    containsSub
      "CORRECTION FROM PREVIOUS ANSWER: For the question \"Q1\", your answer was incorrect. The correct answer was: \"Paris\"".data
      (composePrompt nextQuestionParis).data = true ∧
    (processChatGPTResponseModel fsAfterIncorrect parisPage
        parisReply).1.lastIncorrectQuestion = none ∧
    (processChatGPTResponseModel fsAfterIncorrect parisPage
        parisReply).1.lastCorrectAnswer = none ∧
    questionCorrection
      (processChatGPTResponseModel fsAfterIncorrect parisPage parisReply).1 =
        none := by
  have hclean : cleanAnswer (Json.str "Field 1: Paris or Paris, France") =
      Json.str "Paris" := by
    simp only [cleanAnswer]
    rw [if_neg (by decide)]
    rw [show cleanAnswerStr "Field 1: Paris or Paris, France" = "Paris" from rfl]
  have hslot : fsAfterIncorrect.lastCorrectAnswer =
      some (cleanAnswer (Json.str "Field 1: Paris or Paris, France")) := rfl
  rw [hclean] at hslot
  have hq : questionCorrection fsAfterIncorrect =
      some ⟨"Q1", cleanAnswer (Json.str "Field 1: Paris or Paris, France")⟩ := rfl
  rw [hclean] at hq
  have hnq : nextQuestionParis =
      ⟨"multiple_choice", "Q2", .list ["Paris", "London"],
        some ⟨"Q1", Json.str "Paris"⟩⟩ := by
    unfold nextQuestionParis
    rw [hq]
  have hjs : jsonStringify (Json.str "Paris") = "\"Paris\"" := by
    simp only [jsonStringify]
    rfl
  refine ⟨hclean, rfl, hslot, ?_, rfl, rfl, rfl⟩
  rw [hnq]
  simp only [composePrompt]
  rw [if_neg (by decide), if_neg (by decide), if_pos (by decide)]
  rw [hjs]
  rfl
